import Mathlib

/- Shallow embedding of the reverse-mode automatic-differentiation engine of
src/tensor.rs (crate rust-ml).  Tensors are reference-counted shared nodes
(`Tensor(Rc<RefCell<TensorData>>)`); we model the heap of allocations as a list
of `TensorData` records indexed by `NodeId`, and the four backward closures
(statically known `fn` pointers in the Rust source) as a tag plus an
interpretation function.  Rationals stand in for `f32`: every claim-relevant
computation is exact at the inputs considered.  `Option` models panics
(`unwrap` on a missing gradient, out-of-range indexing, incompatible shapes in
the ndarray collaborator). -/

/-- Dense n-dimensional array of rationals modelling ndarray `ArrayD<f32>`:
a shape together with the row-major flattened elements. -/
structure Arr where
  shape : List Nat
  elems : List ℚ
  deriving DecidableEq, Repr

/-- Models ndarray `arr0(x).into_dyn()`: the rank-0 (scalar) array. -/
def arr0 (q : ℚ) : Arr := ⟨[], [q]⟩

/-- Models ndarray `arr1(&[...]).into_dyn()`: a rank-1 array. -/
def arr1 (xs : List ℚ) : Arr := ⟨[xs.length], xs⟩

/-- Models `ArrayD::mapv`: apply a scalar function elementwise. -/
def Arr.mapv (a : Arr) (f : ℚ → ℚ) : Arr := ⟨a.shape, a.elems.map f⟩

/-- Co-broadcast of two shapes given innermost-dimension first (ndarray aligns
shapes from the right); `none` models the incompatible-shape panic. -/
def cobShapeR : List Nat → List Nat → Option (List Nat)
  | [], t => some t
  | a :: s, [] => some (a :: s)
  | a :: s, b :: t =>
    if a = b then (cobShapeR s t).map (fun r => a :: r)
    else if a = 1 then (cobShapeR s t).map (fun r => b :: r)
    else if b = 1 then (cobShapeR s t).map (fun r => a :: r)
    else none

/-- Co-broadcast shape of two arrays, as in ndarray 0.15 arithmetic operators. -/
def cobShape (s t : List Nat) : Option (List Nat) :=
  (cobShapeR s.reverse t.reverse).map List.reverse

/-- Row-major flattening of a multi-index. -/
def flatIndex (shape idx : List Nat) : Nat :=
  (shape.zip idx).foldl (fun acc p => acc * p.1 + p.2) 0

/-- Read an array at a multi-index of the broadcast result shape: drop the
leading extra coordinates, clamp coordinates over broadcast (size-1) axes. -/
def Arr.bget (a : Arr) (outShape idx : List Nat) : ℚ :=
  let idx2 := idx.drop (outShape.length - a.shape.length)
  let src := (a.shape.zip idx2).map (fun p => if p.1 = 1 then 0 else p.2)
  a.elems.getD (flatIndex a.shape src) 0

/-- All multi-indices of a shape in row-major order. -/
def allIndices : List Nat → List (List Nat)
  | [] => [[]]
  | d :: ds => (List.range d).flatMap (fun i => (allIndices ds).map (fun t => i :: t))

/-- Elementwise binary operation with co-broadcasting; `none` models the
ndarray panic on incompatible shapes. -/
def zipB (f : ℚ → ℚ → ℚ) (a b : Arr) : Option Arr :=
  (cobShape a.shape b.shape).map (fun sh =>
    ⟨sh, (allIndices sh).map (fun ix => Arr.bget a sh ix |> (fun x => f x (Arr.bget b sh ix)))⟩)

/-- Models `&a + &b` on `ArrayD<f32>`. -/
def addA (a b : Arr) : Option Arr := zipB (fun x y => x + y) a b

/-- Models `&a * &b` (also `a * &b`) on `ArrayD<f32>`. -/
def mulA (a b : Arr) : Option Arr := zipB (fun x y => x * y) a b

/-- Tag identifying which of the four statically defined backward functions a
node carries (the Rust field `_backward : Option<fn(&TensorData)>` can only
hold the `backward` fn defined in `tanh`, `relu`, `add` or `mul`). -/
inductive BackKind
  | tanhK | reluK | addK | mulK
  deriving DecidableEq, Repr

abbrev NodeId := Nat

/-- Mirrors `struct TensorData` of src/tensor.rs.  `_children` holds the node
references (ids into the allocation store) and `_uuid` models `Uuid::new_v4()`
as a fresh counter (v4 uuids are assumed unique across the program run). -/
structure TensorData where
  data : Arr
  grad : Option Arr
  _op : Option String
  _children : List NodeId
  _backward : Option BackKind
  _uuid : Nat
  deriving DecidableEq, Repr

/-- The heap of `Rc` allocations: the `Tensor` handle with id `i` points at
`nodes[i]`.  `Rc::ptr_eq` of two handles is equality of their ids. -/
structure State where
  nodes : List TensorData
  deriving DecidableEq, Repr

/-- Placeholder record returned on an out-of-range read; node ids produced by
construction are always in range, so it is never consulted in built states. -/
def defaultTD : TensorData := ⟨arr0 0, none, none, [], none, 0⟩

/-- Dereference a node handle (`tensor.borrow()`). -/
def State.get (s : State) (i : NodeId) : TensorData := s.nodes.getD i defaultTD

def State.len (s : State) : Nat := s.nodes.length

/-- Write a node's gradient field (`tensor.borrow_mut().grad = g`); the only
mutation the backward machinery ever performs. -/
def setGrad (s : State) (i : NodeId) (g : Option Arr) : State :=
  ⟨s.nodes.set i { s.get i with grad := g }⟩

/-- Mirrors `TensorData::new`, with the freshly minted uuid made explicit. -/
def TensorData.new (d : Arr) (u : Nat) : TensorData :=
  { data := d, grad := none, _op := none, _children := [], _backward := none, _uuid := u }

/-- Mirrors `Tensor::from(ArrayD<f32>)` (leaf creation): allocate a fresh node. -/
def Tensor.fromArr (s : State) (a : Arr) : State × NodeId :=
  (⟨s.nodes ++ [TensorData.new a s.len]⟩, s.len)

/-- Mirrors `Tensor::tanh`.  The elementwise forward function `f` stands for
`f32::tanh`, which has no exact counterpart on ℚ; no claim depends on its
values, only on the backward closure, which reads the output's own data. -/
def Tensor.tanh (f : ℚ → ℚ) (s : State) (x : NodeId) : State × NodeId :=
  let d := ((s.get x).data).mapv f
  (⟨s.nodes ++ [{ TensorData.new d s.len with
      _op := some "tanh", _children := [x], _backward := some BackKind.tanhK }]⟩, s.len)

/-- Mirrors `Tensor::relu`: forward is `mapv(|x| if x > 0.0 { x } else { 0.0 })`. -/
def Tensor.relu (s : State) (x : NodeId) : State × NodeId :=
  let d := ((s.get x).data).mapv (fun q => if 0 < q then q else 0)
  (⟨s.nodes ++ [{ TensorData.new d s.len with
      _op := some "relu", _children := [x], _backward := some BackKind.reluK }]⟩, s.len)

/-- Mirrors `impl Add<&Tensor> for &Tensor`; `none` is the ndarray shape panic. -/
def Tensor.add (s : State) (a b : NodeId) : Option (State × NodeId) :=
  (addA (s.get a).data (s.get b).data).map (fun d =>
    (⟨s.nodes ++ [{ TensorData.new d s.len with
        _op := some "+", _children := [a, b], _backward := some BackKind.addK }]⟩, s.len))

/-- Mirrors `impl Mul<&Tensor> for &Tensor`. -/
def Tensor.mul (s : State) (a b : NodeId) : Option (State × NodeId) :=
  (mulA (s.get a).data (s.get b).data).map (fun d =>
    (⟨s.nodes ++ [{ TensorData.new d s.len with
        _op := some "*", _children := [a, b], _backward := some BackKind.mulK }]⟩, s.len))

/-- The backward fn defined inside `Tensor::tanh`: `grad_input =
out.grad.unwrap() * (1.0 - tanh_out * tanh_out)`, written (not accumulated)
into `out._children[0]`.  `none` models the `unwrap` / indexing panic. -/
def tanhBackward (out : TensorData) (s : State) : Option State :=
  match out.grad with
  | none => none
  | some grad =>
    match mulA out.data out.data with
    | none => none
    | some t2 =>
      match mulA grad (t2.mapv (fun q => 1 - q)) with
      | none => none
      | some grad_input =>
        match out._children with
        | [] => none
        | c :: _ => some (setGrad s c (some grad_input))

/-- The backward fn defined inside `Tensor::relu`: `grad_input =
out.grad.unwrap() * relu_out.mapv(|x| if x > 0.0 { 1.0 } else { 0.0 })`,
written (not accumulated) into `out._children[0]`. -/
def reluBackward (out : TensorData) (s : State) : Option State :=
  match out.grad with
  | none => none
  | some grad =>
    match mulA grad (out.data.mapv (fun q => if 0 < q then 1 else 0)) with
    | none => none
    | some grad_input =>
      match out._children with
      | [] => none
      | c :: _ => some (setGrad s c (some grad_input))

/-- Body of the `for child in out._children` loop of the `add` backward fn:
read the child's current gradient (`arr0(0.0)` when absent via
`unwrap_or_else`) and store `child_grad + grad`. -/
def addChildStep (grad : Arr) (st : State) (c : NodeId) : Option State :=
  (addA ((st.get c).grad.getD (arr0 0)) grad).map (fun g => setGrad st c (some g))

/-- The backward fn defined inside `add`: for each child in order, accumulate
the incoming gradient into the child's current gradient. -/
def addBackward (out : TensorData) (s : State) : Option State :=
  match out.grad with
  | none => none
  | some grad => out._children.foldlM (addChildStep grad) s

/-- The backward fn defined inside `mul`: capture both children's data and
current gradients (`arr0(0.0)` when absent) before mutating; if the two child
handles are the same allocation (`Rc::ptr_eq`) perform one combined
accumulation `left_grad + grad * (left_data + right_data)`, otherwise the two
product-rule accumulations. -/
def mulBackward (out : TensorData) (s : State) : Option State :=
  match out.grad with
  | none => none
  | some grad =>
    match out._children with
    | a :: b :: _ =>
      if a = b then
        match addA (s.get a).data (s.get b).data with
        | none => none
        | some sum =>
          match mulA grad sum with
          | none => none
          | some t =>
            match addA ((s.get a).grad.getD (arr0 0)) t with
            | none => none
            | some g => some (setGrad s a (some g))
      else
        match mulA grad (s.get b).data with
        | none => none
        | some t1 =>
          match addA ((s.get a).grad.getD (arr0 0)) t1 with
          | none => none
          | some g1 =>
            match mulA grad (s.get a).data with
            | none => none
            | some t2 =>
              match addA ((s.get b).grad.getD (arr0 0)) t2 with
              | none => none
              | some g2 => some (setGrad (setGrad s a (some g1)) b (some g2))
    | _ => none

/-- Dispatch a stored backward-fn tag to its interpretation. -/
def runBackward (k : BackKind) (out : TensorData) (s : State) : Option State :=
  match k with
  | BackKind.tanhK => tanhBackward out s
  | BackKind.reluK => reluBackward out s
  | BackKind.addK => addBackward out s
  | BackKind.mulK => mulBackward out s

mutual
/-- Mirrors `Tensor::_build_topo`: depth-first postorder guarded by a visited
set of uuids (the `HashSet<Tensor>` hashes and compares on `_uuid`).  `fuel`
bounds the recursion depth, which the Rust recursion leaves unbounded; in any
state built by the operations every child id is strictly below its parent id,
so fuel `i + 1` suffices and the fuel-exhaustion branch is never taken. -/
def buildTopoAux (s : State) (fuel : Nat) (i : NodeId)
    (tv : List NodeId × List Nat) : List NodeId × List Nat :=
  match fuel with
  | 0 => tv
  | Nat.succ f =>
    if (s.get i)._uuid ∈ tv.2 then tv
    else
      let tv2 := buildTopoChildren s f ((s.get i)._children) (tv.1, (s.get i)._uuid :: tv.2)
      (tv2.1 ++ [i], tv2.2)
termination_by (fuel, 0)

/-- The `for_each` over `_children` inside `_build_topo`, threading the
accumulating (topo, visited) pair left to right. -/
def buildTopoChildren (s : State) (fuel : Nat) (cs : List NodeId)
    (tv : List NodeId × List Nat) : List NodeId × List Nat :=
  match cs with
  | [] => tv
  | c :: rest => buildTopoChildren s fuel rest (buildTopoAux s fuel c tv)
termination_by (fuel, cs.length + 1)
end

/-- Entry point of the topological build as `backward` uses it, with fuel
`s.len` (any node id is below `s.len`, so the fuel never runs out in range). -/
def Tensor.buildTopo (s : State) (i : NodeId) : List NodeId × List Nat :=
  buildTopoAux s s.len i ([], [])

/-- One iteration of the loop in `Tensor::backward`: a node without a backward
fn is skipped, otherwise its backward fn runs on the node's current record. -/
def backwardStep (st : State) (v : NodeId) : Option State :=
  match (st.get v)._backward with
  | none => some st
  | some k => runBackward k (st.get v) st

/-- Mirrors `Tensor::backward`: build the topological order, reverse it, seed
`self.grad = Some(arr0(1.0))`, then run each node's backward fn in order. -/
def Tensor.backward (s : State) (i : NodeId) : Option State :=
  let topo := (Tensor.buildTopo s i).1
  (topo.reverse).foldlM backwardStep (setGrad s i (some (arr0 1)))

/-- A sequence of `backward()` calls on the listed nodes. -/
def backwardMany (s : State) (l : List NodeId) : Option State :=
  l.foldlM Tensor.backward s

/-- Structural sanity of one node: the backward-fn tag matches the arity of
`_children` exactly as each constructor sets them (leaves have neither). -/
def nodeOKb (t : TensorData) : Bool :=
  match t._backward, t._children with
  | none, [] => true
  | some BackKind.tanhK, [_] => true
  | some BackKind.reluK, [_] => true
  | some BackKind.addK, [_, _] => true
  | some BackKind.mulK, [_, _] => true
  | _, _ => false

/-- Well-formedness every state built by the operations enjoys: uuids are the
allocation indices (freshness of `Uuid::new_v4`), children point strictly
below their parent (operations only reference already-existing nodes), and
each node's backward tag matches its arity. -/
def WFb (s : State) : Bool :=
  (List.range s.len).all (fun i =>
    ((s.get i)._uuid == i) && ((s.get i)._children.all (fun c => decide (c < i)))
      && nodeOKb (s.get i))

/-- Reachability along `_children` edges: the ancestor set a `backward()` call
traverses (§4.4 of the spec). -/
inductive Reaches (s : State) (i : NodeId) : NodeId → Prop
  | refl : Reaches s i i
  | step {j c : NodeId} : Reaches s i j → c ∈ (s.get j)._children → Reaches s i c

/-- Mirrors `impl PartialEq for Tensor`: two handles compare equal exactly when
the borrowed records carry the same `_uuid` (not when their data agree). -/
def tensorEqb (s : State) (a b : NodeId) : Bool :=
  (s.get a)._uuid == (s.get b)._uuid

/-- Mirrors `impl Hash for Tensor`: the hasher is fed exactly the node's
`_uuid`, so the hash value is a function of what this returns. -/
def tensorHashInput (s : State) (a : NodeId) : Nat :=
  (s.get a)._uuid

/-- The fields of a node that `backward()` must never touch: everything except
`grad`. -/
def skeleton (t : TensorData) : Arr × Option String × List NodeId × Option BackKind × Nat :=
  (t.data, t._op, t._children, t._backward, t._uuid)

/-- Frame relation between two heaps: same allocations, and every node agrees
on every field except possibly `grad`. -/
def sameSkel (s s' : State) : Prop :=
  s'.len = s.len ∧ ∀ j, skeleton (s'.get j) = skeleton (s.get j)

/-- All-zero array of the same shape as `a`. -/
def zerosLike (a : Arr) : Arr :=
  ⟨a.shape, a.elems.map (fun _ => 0)⟩

/-- Modelled from the spec (§4.2/§7), for comparison with `addChildStep`: the
spec words the missing-gradient default as "a zero-valued array of the correct
shape (shaped like the input's data)" where the source uses `arr0(0.0)`. -/
def addChildStepSpecShaped (grad : Arr) (st : State) (c : NodeId) : Option State :=
  (addA ((st.get c).grad.getD (zerosLike (st.get c).data)) grad).map
    (fun g => setGrad st c (some g))

/-- Modelled from the spec, for comparison with `addBackward`: the add backward
closure with the spec-worded input-shaped zero default. -/
def addBackwardSpecShaped (out : TensorData) (s : State) : Option State :=
  match out.grad with
  | none => none
  | some grad => out._children.foldlM (addChildStepSpecShaped grad) s

/-- Topological-order invariant of a list of nodes: wherever the list splits as
`p ++ v :: r`, all of `v`'s inputs lie in the strict prefix `p`; with `Nodup`
this says every node appears strictly after all of its own inputs. -/
def InputsClosedBefore (s : State) (topo : List NodeId) : Prop :=
  ∀ p v r, topo = p ++ v :: r → ∀ c ∈ (s.get v)._children, c ∈ p

/-- Invariant of the (topo, visited) accumulator of `_build_topo`. -/
def TopoInv (s : State) (tv : List NodeId × List Nat) : Prop :=
  tv.1.Nodup ∧
  (∀ v ∈ tv.1, v < s.len ∧ v ∈ tv.2) ∧
  InputsClosedBefore s tv.1 ∧
  (∀ u ∈ tv.2, u < s.len)

/-- Every visited node is either completed (in topo) or a grey DFS ancestor of
the node currently entered, hence has id at least `m`. -/
def GreyAbove (tv : List NodeId × List Nat) (m : Nat) : Prop :=
  ∀ u ∈ tv.2, u ∈ tv.1 ∨ m ≤ u

/-- What one recursive `_build_topo` call on node `i` guarantees. -/
def AuxPost (s : State) (i : NodeId) (tv tv' : List NodeId × List Nat) : Prop :=
  TopoInv s tv' ∧
  (∃ d, tv'.1 = tv.1 ++ d ∧ ∀ v ∈ d, v ≤ i ∧ Reaches s i v) ∧
  (∀ u ∈ tv.2, u ∈ tv'.2) ∧
  (∀ u ∈ tv'.2, u ∈ tv'.1 ∨ u ∈ tv.2) ∧
  i ∈ tv'.1 ∧
  (i ∉ tv.2 → ∃ d, tv'.1 = tv.1 ++ d ++ [i])

/-- What the loop over a child list `cs` (all below `m`) guarantees. -/
def ChildrenPost (s : State) (m : Nat) (cs : List NodeId) (tv tv' : List NodeId × List Nat) : Prop :=
  TopoInv s tv' ∧
  (∃ d, tv'.1 = tv.1 ++ d ∧ ∀ v ∈ d, v < m ∧ ∃ c ∈ cs, Reaches s c v) ∧
  (∀ u ∈ tv.2, u ∈ tv'.2) ∧
  (∀ u ∈ tv'.2, u ∈ tv'.1 ∨ u ∈ tv.2) ∧
  (∀ c ∈ cs, c ∈ tv'.1)

/-- The states reachable through the public constructors of the module: empty
heap, leaf creation, and the four operations applied to existing handles (a
caller can only hold handles to already-performed allocations). -/
inductive Built : State → Prop
  | empty : Built ⟨[]⟩
  | leaf {s : State} (a : Arr) : Built s → Built (Tensor.fromArr s a).1
  | tanhB {s : State} (f : ℚ → ℚ) {x : NodeId} : Built s → x < s.len →
      Built (Tensor.tanh f s x).1
  | reluB {s : State} {x : NodeId} : Built s → x < s.len →
      Built (Tensor.relu s x).1
  | addB {s s' : State} {a b o : NodeId} : Built s → a < s.len → b < s.len →
      Tensor.add s a b = some (s', o) → Built s'
  | mulB {s s' : State} {a b o : NodeId} : Built s → a < s.len → b < s.len →
      Tensor.mul s a b = some (s', o) → Built s'

lemma State.len_setGrad (s : State) (i : NodeId) (g : Option Arr) :
    (setGrad s i g).len = s.len := by
  simp [setGrad, State.len]

lemma get_setGrad_ne (s : State) (i j : NodeId) (g : Option Arr) (h : j ≠ i) :
    (setGrad s i g).get j = s.get j := by
  simp [setGrad, State.get, List.getD_eq_getElem?_getD,
    List.getElem?_set_ne (fun hh => h hh.symm)]

lemma get_setGrad_self (s : State) (i : NodeId) (g : Option Arr) (h : i < s.len) :
    (setGrad s i g).get i = { s.get i with grad := g } := by
  simp [setGrad, State.get, List.getD_eq_getElem?_getD, List.getElem?_set_self h]

lemma setGrad_oob (s : State) (i : NodeId) (g : Option Arr) (h : s.len ≤ i) :
    setGrad s i g = s := by
  cases s with
  | mk nodes => simp [setGrad, List.set_eq_of_length_le h]

lemma skeleton_setGrad (s : State) (i j : NodeId) (g : Option Arr) :
    skeleton ((setGrad s i g).get j) = skeleton (s.get j) := by
  by_cases h : j = i
  · subst h
    by_cases h2 : j < s.len
    · rw [get_setGrad_self s j g h2]; rfl
    · rw [setGrad_oob s j g (Nat.le_of_not_lt h2)]
  · rw [get_setGrad_ne s i j g h]

lemma sameSkel_refl (s : State) : sameSkel s s := ⟨rfl, fun _ => rfl⟩

lemma sameSkel_trans {s1 s2 s3 : State} (h1 : sameSkel s1 s2) (h2 : sameSkel s2 s3) :
    sameSkel s1 s3 :=
  ⟨h2.1.trans h1.1, fun j => (h2.2 j).trans (h1.2 j)⟩

lemma sameSkel_setGrad (s : State) (i : NodeId) (g : Option Arr) :
    sameSkel s (setGrad s i g) :=
  ⟨State.len_setGrad s i g, fun j => skeleton_setGrad s i j g⟩

lemma sameSkel_fields {s s' : State} (h : sameSkel s s') (j : NodeId) :
    (s'.get j).data = (s.get j).data ∧ (s'.get j)._op = (s.get j)._op ∧
    (s'.get j)._children = (s.get j)._children ∧
    (s'.get j)._backward = (s.get j)._backward ∧ (s'.get j)._uuid = (s.get j)._uuid := by
  have h2 := h.2 j
  simpa [skeleton, Prod.ext_iff] using h2

lemma wf_spec {s : State} (hw : WFb s = true) {i : NodeId} (hi : i < s.len) :
    (s.get i)._uuid = i ∧ (∀ c ∈ (s.get i)._children, c < i) ∧ nodeOKb (s.get i) = true := by
  simp only [WFb, List.all_eq_true, List.mem_range] at hw
  have h := hw i hi
  simp only [Bool.and_eq_true, beq_iff_eq, List.all_eq_true, decide_eq_true_eq] at h
  exact ⟨h.1.1, h.1.2, h.2⟩

lemma wf_child_lt {s : State} (hw : WFb s = true) {i : NodeId} (hi : i < s.len)
    {c : NodeId} (hc : c ∈ (s.get i)._children) : c < i :=
  (wf_spec hw hi).2.1 c hc

lemma Reaches.trans_right {s : State} {a b c : NodeId} (h1 : Reaches s a b)
    (h2 : Reaches s b c) : Reaches s a c := by
  induction h2 with
  | refl => exact h1
  | step _ hc ih => exact Reaches.step ih hc

lemma reaches_le {s : State} (hw : WFb s = true) {i j : NodeId} (hi : i < s.len)
    (h : Reaches s i j) : j ≤ i := by
  induction h with
  | refl => exact Nat.le_refl i
  | step _ hc ih =>
    exact Nat.le_of_lt (Nat.lt_of_lt_of_le
      (wf_child_lt hw (Nat.lt_of_le_of_lt ih hi) hc) ih)

lemma ccp_nil (s : State) : InputsClosedBefore s [] := by
  intro p v r h
  exact absurd h (by simp)

lemma ccp_concat {s : State} {l : List NodeId} {i : NodeId}
    (h1 : InputsClosedBefore s l) (h2 : ∀ c ∈ (s.get i)._children, c ∈ l) :
    InputsClosedBefore s (l ++ [i]) := by
  intro p v r hsplit c hc
  rcases List.eq_nil_or_concat r with hr | ⟨r', a, hr⟩
  · subst hr
    have hlen : l.length = p.length := by
      have hl := congrArg List.length hsplit
      simp at hl
      omega
    obtain ⟨hpl, hvi⟩ := List.append_inj hsplit hlen
    have hvi2 : i = v := by simpa using hvi
    subst hpl
    exact h2 c (hvi2 ▸ hc)
  · subst hr
    have hsplit2 : l ++ [i] = (p ++ v :: r') ++ [a] := by
      simpa using hsplit
    obtain ⟨hpl, _⟩ := List.append_inj' hsplit2 rfl
    exact h1 p v r' hpl c hc

lemma reaches_mem_of_ccp {s : State} {topo : List NodeId}
    (hc : InputsClosedBefore s topo) {i : NodeId} (hi : i ∈ topo) {j : NodeId}
    (h : Reaches s i j) : j ∈ topo := by
  induction h with
  | refl => exact hi
  | step _ hcm ih =>
    rcases List.append_of_mem ih with ⟨p, r, hpr⟩
    rw [hpr]
    exact List.mem_append_left _ (hc p _ r hpr _ hcm)

/-- The leaf `a = Tensor::from(arr1(&[3.0]))` of `_check_operation_double_variable`. -/
def exX : TensorData := TensorData.new (arr1 [3]) 0

/-- The node `&a + &a` over `exX`. -/
def exAddNode : TensorData :=
  { TensorData.new (arr1 [6]) 1 with _op := some "+", _children := [0, 0], _backward := some BackKind.addK }

/-- Heap after `let a = Tensor::from(arr1(&[3.0])); let b = &a + &a;`. -/
def exAddState : State := ⟨[exX, exAddNode]⟩

/-- The node `&a * &a` over `exX`. -/
def exMulNode : TensorData :=
  { TensorData.new (arr1 [9]) 1 with _op := some "*", _children := [0, 0], _backward := some BackKind.mulK }

/-- Heap after `let c = Tensor::from(arr1(&[3.0])); let d = &c * &c;`. -/
def exMulState : State := ⟨[exX, exMulNode]⟩

lemma exAddState_built :
    Tensor.add (Tensor.fromArr ⟨[]⟩ (arr1 [3])).1 0 0 = some (exAddState, 1) := by
  simp [Tensor.add, Tensor.fromArr, exAddState, exX, exAddNode, addA, zipB, cobShape,
    cobShapeR, allIndices, State.get, State.len, TensorData.new, arr1, Arr.bget, flatIndex,
    List.range_succ, List.range_zero]
  norm_num

lemma exMulState_built :
    Tensor.mul (Tensor.fromArr ⟨[]⟩ (arr1 [3])).1 0 0 = some (exMulState, 1) := by
  simp [Tensor.mul, Tensor.fromArr, exMulState, exX, exMulNode, mulA, zipB, cobShape,
    cobShapeR, allIndices, State.get, State.len, TensorData.new, arr1, Arr.bget, flatIndex,
    List.range_succ, List.range_zero]
  norm_num

/-- A rank-1 two-element leaf (as in `_test_basic_add_multiply`). -/
def exX2 : TensorData := TensorData.new ⟨[2], [3, 3]⟩ 0

/-- The node `x + x` over the shape-[2] leaf. -/
def exAdd2Node : TensorData :=
  { TensorData.new ⟨[2], [6, 6]⟩ 1 with _op := some "+", _children := [0, 0], _backward := some BackKind.addK }

/-- Heap holding the shape-[2] leaf and its self-sum. -/
def exAdd2State : State := ⟨[exX2, exAdd2Node]⟩

/-- The terminal record as the backward loop borrows it after seeding. -/
def exAdd2Out : TensorData := { exAdd2Node with grad := some (arr0 1) }

lemma exAdd2State_built :
    Tensor.add (Tensor.fromArr ⟨[]⟩ ⟨[2], [3, 3]⟩).1 0 0 = some (exAdd2State, 1) := by
  simp [Tensor.add, Tensor.fromArr, exAdd2State, exX2, exAdd2Node, addA, zipB, cobShape,
    cobShapeR, allIndices, State.get, State.len, TensorData.new, Arr.bget, flatIndex,
    List.range_succ, List.range_zero]
  norm_num

lemma addBackward_pair {s : State} {o : TensorData} {a b : NodeId} {g ga gb : Arr}
    (hc : o._children = [a, b]) (hg : o.grad = some g) (hab : a ≠ b)
    (h1 : addA ((s.get a).grad.getD (arr0 0)) g = some ga)
    (h2 : addA ((s.get b).grad.getD (arr0 0)) g = some gb) :
    addBackward o s = some (setGrad (setGrad s a (some ga)) b (some gb)) := by
  have hb2 : ((setGrad s a (some ga)).get b) = s.get b :=
    get_setGrad_ne s a b (some ga) (fun h => hab h.symm)
  simp [addBackward, hc, hg, addChildStep, h1, hb2, h2]

/-- C2: the add backward closure accumulates `previous_or_zero + out.gradient`
into each of its two inputs in order (never overwriting), so with both input
slots aliased to one node the two contributions stack; concretely, for
`b = &a + &a` over `a = [3.0]`, `b.backward()` leaves `a.grad = 2.0`, not 1.0. -/
theorem add_backward_accumulates :
    (∀ (s : State) (o : TensorData) (a b : NodeId) (g ga gb : Arr),
      o._children = [a, b] → o.grad = some g → a ≠ b →
      addA ((s.get a).grad.getD (arr0 0)) g = some ga →
      addA ((s.get b).grad.getD (arr0 0)) g = some gb →
      addBackward o s = some (setGrad (setGrad s a (some ga)) b (some gb))) ∧
    (∀ (s : State) (o : TensorData) (a : NodeId) (g g1 g2 : Arr),
      a < s.len → o._children = [a, a] → o.grad = some g →
      addA ((s.get a).grad.getD (arr0 0)) g = some g1 →
      addA g1 g = some g2 →
      addBackward o s = some (setGrad (setGrad s a (some g1)) a (some g2))) ∧
    (Tensor.backward exAddState 1).map (fun st => (st.get 0).grad) = some (some (arr0 2)) := by
  refine ⟨fun s o a b g ga gb hc hg hab h1 h2 => addBackward_pair hc hg hab h1 h2, ?_, ?_⟩
  · intro s o a g g1 g2 ha hc hg h1 h2
    have hread : ((setGrad s a (some g1)).get a).grad = some g1 := by
      rw [get_setGrad_self s a (some g1) ha]
    simp [addBackward, hc, hg, addChildStep, h1, hread, h2]
  · simp [Tensor.backward, Tensor.buildTopo, buildTopoAux, buildTopoChildren, backwardStep,
      runBackward, addBackward, addChildStep, setGrad, exAddState, exAddNode, exX,
      TensorData.new, State.get, State.len, arr0, arr1, addA, zipB, cobShape, cobShapeR,
      allIndices, Arr.bget, flatIndex, List.range_succ, List.range_zero]
    norm_num

/-- C2 witness: the general accumulation statements instantiated on the
concrete `b = &a + &a` heap (distinct-children part on a two-leaf sum heap). -/
theorem add_backward_accumulates_witness :
    addBackward { exAddNode with grad := some (arr0 1) } exAddState
      = some (setGrad (setGrad exAddState 0 (some (arr0 1))) 0 (some (arr0 2))) :=
  add_backward_accumulates.2.1 exAddState { exAddNode with grad := some (arr0 1) } 0
    (arr0 1) (arr0 1) (arr0 2) (by simp [exAddState, State.len])
    (by simp [exAddNode, TensorData.new]) rfl
    (by simp [exAddState, exX, State.get, TensorData.new, addA, zipB, cobShape, cobShapeR,
          allIndices, arr0, arr1, Arr.bget, flatIndex, List.range_succ, List.range_zero])
    (by simp [addA, zipB, cobShape, cobShapeR, allIndices, arr0, Arr.bget, flatIndex,
          List.range_succ, List.range_zero]
        norm_num)

/-- C1: when both input slots of a multiply reference the same node, the
backward closure detects the aliasing (`Rc::ptr_eq`) and performs one combined
accumulation `previous_or_zero + out.gradient * (a.data + b.data)`; concretely
for `d = &c * &c` with `c = [3.0]`, `d.data = [9.0]` and `d.backward()` leaves
`c.grad = [6.0]`. -/
theorem mul_self_single_accumulation :
    (∀ (s : State) (o : TensorData) (a : NodeId) (g sum t gn : Arr),
      o._children = [a, a] → o.grad = some g →
      addA (s.get a).data (s.get a).data = some sum →
      mulA g sum = some t →
      addA ((s.get a).grad.getD (arr0 0)) t = some gn →
      mulBackward o s = some (setGrad s a (some gn))) ∧
    (exMulState.get 1).data = arr1 [9] ∧
    (Tensor.backward exMulState 1).map (fun st => (st.get 0).grad) = some (some (arr1 [6])) := by
  refine ⟨?_, by simp [exMulState, exMulNode, State.get, TensorData.new], ?_⟩
  · intro s o a g sum t gn hc hg hsum ht hgn
    simp [mulBackward, hc, hg, hsum, ht, hgn]
  · simp [Tensor.backward, Tensor.buildTopo, buildTopoAux, buildTopoChildren, backwardStep,
      runBackward, mulBackward, setGrad, exMulState, exMulNode, exX,
      TensorData.new, State.get, State.len, arr0, arr1, addA, mulA, zipB, cobShape, cobShapeR,
      allIndices, Arr.bget, flatIndex, List.range_succ, List.range_zero]
    norm_num

/-- C1 witness: the aliased-multiply accumulation instantiated on the concrete
`d = &c * &c` heap with the seeded output gradient. -/
theorem mul_self_single_accumulation_witness :
    mulBackward { exMulNode with grad := some (arr0 1) } exMulState
      = some (setGrad exMulState 0 (some (arr1 [6]))) :=
  mul_self_single_accumulation.1 exMulState { exMulNode with grad := some (arr0 1) } 0
    (arr0 1) (arr1 [6]) (arr1 [6]) (arr1 [6])
    (by simp [exMulNode, TensorData.new]) rfl
    (by norm_num [exMulState, exX, State.get, TensorData.new, addA, zipB, cobShape, cobShapeR,
          allIndices, arr1, Arr.bget, flatIndex, List.range_succ, List.range_zero])
    (by norm_num [mulA, zipB, cobShape, cobShapeR, allIndices, arr0, arr1, Arr.bget, flatIndex,
          List.range_succ, List.range_zero])
    (by norm_num [exMulState, exX, State.get, TensorData.new, addA, zipB, cobShape, cobShapeR,
          allIndices, arr0, arr1, Arr.bget, flatIndex, List.range_succ, List.range_zero])

/-- C5: the unary backward closures overwrite (rather than accumulate into)
their single input's gradient, writing `out.gradient * f'` computed from the
output's own data: `out.gradient * (1 - out.data^2)` for tanh and
`out.gradient * [out.data > 0]` for relu; the written value is independent of
the input's current gradient and of the ambient heap. -/
theorem unary_backward_overwrites :
    (∀ (s : State) (o : TensorData) (x : NodeId) (g t2 gi : Arr),
      o._children = [x] → o.grad = some g →
      mulA o.data o.data = some t2 →
      mulA g (t2.mapv (fun q => 1 - q)) = some gi →
      tanhBackward o s = some (setGrad s x (some gi))) ∧
    (∀ (s : State) (o : TensorData) (x : NodeId) (g gi : Arr),
      o._children = [x] → o.grad = some g →
      mulA g (o.data.mapv (fun q => if 0 < q then 1 else 0)) = some gi →
      reluBackward o s = some (setGrad s x (some gi))) := by
  constructor
  · intro s o x g t2 gi hc hg h2 hgi
    simp [tanhBackward, hc, hg, h2, hgi]
  · intro s o x g gi hc hg hgi
    simp [reluBackward, hc, hg, hgi]

/-- Heap with leaves `[3.0]` (node 0), product node (node 1), and a second
leaf `[4.0]` (node 2), to exercise the non-aliased multiply closure. -/
def exMulTwoState : State := ⟨[exX, exMulNode, TensorData.new (arr1 [4]) 2]⟩

/-- A leaf with a pre-existing gradient, to exhibit the unary overwrite. -/
def exLeafWithGrad : TensorData := { TensorData.new (arr1 [3]) 0 with grad := some (arr0 5) }

/-- Heap holding just the pre-gradiented leaf. -/
def exUnaryState : State := ⟨[exLeafWithGrad]⟩

/-- A seeded tanh output node over node 0 (forward value as borne by the node). -/
def exTanhOut : TensorData :=
  { TensorData.new (arr1 [1/2]) 1 with
      _op := some "tanh", _children := [0], _backward := some BackKind.tanhK,
      grad := some (arr0 1) }

/-- A seeded relu output node over node 0. -/
def exReluOut : TensorData :=
  { TensorData.new ⟨[2], [3, 0]⟩ 1 with
      _op := some "relu", _children := [0], _backward := some BackKind.reluK,
      grad := some (arr0 1) }

/-- C5 witness: both unary closures instantiated on a heap whose input already
holds a gradient; the closures overwrite it with the output-derived value. -/
theorem unary_backward_overwrites_witness :
    tanhBackward exTanhOut exUnaryState
      = some (setGrad exUnaryState 0 (some (arr1 [3/4]))) ∧
    reluBackward exReluOut exUnaryState
      = some (setGrad exUnaryState 0 (some ⟨[2], [1, 0]⟩)) :=
  ⟨unary_backward_overwrites.1 exUnaryState exTanhOut 0 (arr0 1) (arr1 [1/4]) (arr1 [3/4])
      (by simp [exTanhOut, TensorData.new]) (by simp [exTanhOut, TensorData.new])
      (by norm_num [exTanhOut, TensorData.new, mulA, zipB, cobShape, cobShapeR, allIndices,
        arr1, Arr.bget, flatIndex, List.range_succ, List.range_zero])
      (by norm_num [Arr.mapv, mulA, zipB, cobShape, cobShapeR, allIndices, arr0, arr1,
        Arr.bget, flatIndex, List.range_succ, List.range_zero]),
    unary_backward_overwrites.2 exUnaryState exReluOut 0 (arr0 1) ⟨[2], [1, 0]⟩
      (by simp [exReluOut, TensorData.new]) (by simp [exReluOut, TensorData.new])
      (by norm_num [exReluOut, TensorData.new, Arr.mapv, mulA, zipB, cobShape, cobShapeR,
        allIndices, arr0, Arr.bget, flatIndex, List.range_succ, List.range_zero])⟩

/-- C6 counterexample: the code's missing-gradient default is `arr0(0.0)`, not
a zero array shaped like the input's data: on the shape-[2] self-sum the code
leaves a rank-0 gradient `2.0` where the spec-worded input-shaped default
would leave the shape-[2] gradient `[2.0, 2.0]`. -/
theorem missing_grad_shaped_counterexample :
    addBackward exAdd2Out exAdd2State ≠ addBackwardSpecShaped exAdd2Out exAdd2State ∧
    (addBackward exAdd2Out exAdd2State).map (fun st => (st.get 0).grad)
      = some (some (arr0 2)) ∧
    (addBackwardSpecShaped exAdd2Out exAdd2State).map (fun st => (st.get 0).grad)
      = some (some ⟨[2], [2, 2]⟩) ∧
    (arr0 2).shape ≠ (exAdd2State.get 0).data.shape := by
  refine ⟨?_, ?_, ?_, ?_⟩
  · norm_num [addBackward, addBackwardSpecShaped, addChildStep, addChildStepSpecShaped,
      exAdd2Out, exAdd2State, exAdd2Node, exX2, TensorData.new, State.get, State.len,
      setGrad, zerosLike, arr0, addA, zipB, cobShape, cobShapeR, allIndices, Arr.bget,
      flatIndex, List.range_succ, List.range_zero]
  · norm_num [addBackward, addChildStep, exAdd2Out, exAdd2State, exAdd2Node, exX2,
      TensorData.new, State.get, State.len, setGrad, arr0, addA, zipB, cobShape, cobShapeR,
      allIndices, Arr.bget, flatIndex, List.range_succ, List.range_zero]
  · norm_num [addBackwardSpecShaped, addChildStepSpecShaped, exAdd2Out, exAdd2State,
      exAdd2Node, exX2, TensorData.new, State.get, State.len, setGrad, zerosLike, arr0,
      addA, zipB, cobShape, cobShapeR, allIndices, Arr.bget, flatIndex,
      List.range_succ, List.range_zero]
  · norm_num [arr0, exAdd2State, exX2, State.get, TensorData.new]

/-- C6 amended: a missing child gradient is treated as the rank-0 scalar zero
array `arr0(0.0)` (never a fatal error) regardless of the input's shape, and
only aligns with the input's shape through broadcasting in the subsequent
accumulation; shown for the add step and the non-aliased multiply closure. -/
theorem missing_grad_default_is_scalar_zero :
    (∀ (grad : Arr) (st : State) (c : NodeId), (st.get c).grad = none →
      addChildStep grad st c = (addA (arr0 0) grad).map (fun g => setGrad st c (some g))) ∧
    (∀ (s : State) (o : TensorData) (a b : NodeId) (g t1 g1 t2 g2 : Arr),
      o._children = [a, b] → o.grad = some g → a ≠ b →
      (s.get a).grad = none → (s.get b).grad = none →
      mulA g (s.get b).data = some t1 → addA (arr0 0) t1 = some g1 →
      mulA g (s.get a).data = some t2 → addA (arr0 0) t2 = some g2 →
      mulBackward o s = some (setGrad (setGrad s a (some g1)) b (some g2))) := by
  constructor
  · intro grad st c h
    simp [addChildStep, h]
  · intro s o a b g t1 g1 t2 g2 hc hg hab hga hgb h1 h2 h3 h4
    simp [mulBackward, hc, hg, hab, hga, hgb, h1, h2, h3, h4]

/-- C6 amended witness: the scalar-zero default instantiated on the shape-[2]
self-sum heap and on a concrete two-leaf product heap. -/
theorem missing_grad_default_is_scalar_zero_witness :
    addChildStep (arr0 1) exAdd2State 0
      = (addA (arr0 0) (arr0 1)).map (fun g => setGrad exAdd2State 0 (some g)) ∧
    mulBackward { exMulNode with grad := some (arr0 1), _children := [0, 2] } exMulTwoState
      = some (setGrad (setGrad exMulTwoState 0 (some (arr1 [4]))) 2 (some (arr1 [3]))) :=
  ⟨missing_grad_default_is_scalar_zero.1 (arr0 1) exAdd2State 0
      (by simp [exAdd2State, exX2, State.get, TensorData.new]),
    missing_grad_default_is_scalar_zero.2 exMulTwoState
      { exMulNode with grad := some (arr0 1), _children := [0, 2] } 0 2
      (arr0 1) (arr1 [4]) (arr1 [4]) (arr1 [3]) (arr1 [3])
      (by simp [exMulNode, TensorData.new]) (by simp [exMulNode, TensorData.new])
      (by norm_num)
      (by simp [exMulTwoState, exX, State.get, TensorData.new])
      (by simp [exMulTwoState, State.get, TensorData.new])
      (by norm_num [exMulTwoState, State.get, TensorData.new, mulA, zipB, cobShape, cobShapeR,
        allIndices, arr0, arr1, Arr.bget, flatIndex, List.range_succ, List.range_zero])
      (by norm_num [addA, zipB, cobShape, cobShapeR, allIndices, arr0, arr1, Arr.bget,
        flatIndex, List.range_succ, List.range_zero])
      (by norm_num [exMulTwoState, exX, State.get, TensorData.new, mulA, zipB, cobShape,
        cobShapeR, allIndices, arr0, arr1, Arr.bget, flatIndex, List.range_succ,
        List.range_zero])
      (by norm_num [addA, zipB, cobShape, cobShapeR, allIndices, arr0, arr1, Arr.bget,
        flatIndex, List.range_succ, List.range_zero])⟩

/-- C7 counterexample: gradients are not reset between `backward()` calls: on
`b = &a + &a`, one call leaves `a.grad = 2.0` but a second call over the same
graph leaves `a.grad = 4.0` — the previous call's accumulation contaminates
the next one. -/
theorem grad_reset_counterexample :
    (backwardMany exAddState [1, 1]).map (fun st => (st.get 0).grad)
      = some (some (arr0 4)) ∧
    (Tensor.backward exAddState 1).map (fun st => (st.get 0).grad)
      = some (some (arr0 2)) ∧
    (some (some (arr0 4)) : Option (Option Arr)) ≠ some (some (arr0 2)) := by
  refine ⟨?_, ?_, by norm_num [arr0]⟩
  · norm_num [backwardMany, Tensor.backward, Tensor.buildTopo, buildTopoAux,
      buildTopoChildren, backwardStep, runBackward, addBackward, addChildStep, setGrad,
      exAddState, exAddNode, exX, TensorData.new, State.get, State.len, arr0, arr1, addA,
      zipB, cobShape, cobShapeR, allIndices, Arr.bget, flatIndex,
      List.range_succ, List.range_zero]
  · norm_num [Tensor.backward, Tensor.buildTopo, buildTopoAux, buildTopoChildren,
      backwardStep, runBackward, addBackward, addChildStep, setGrad, exAddState, exAddNode,
      exX, TensorData.new, State.get, State.len, arr0, arr1, addA, zipB, cobShape, cobShapeR,
      allIndices, Arr.bget, flatIndex, List.range_succ, List.range_zero]

/-- C7 amended: a node's gradient is written only by the terminal seed and by
backward closures, but it is not reset between calls: each new `backward()`
re-seeds only the terminal node and the closures accumulate on top of whatever
the previous call left (for `b = &a + &a`: `a.grad` is 2.0 after one call and
4.0 after two, while `b.grad` is re-seeded to 1.0 each time). -/
theorem gradients_accumulate_across_calls :
    (backwardMany exAddState [1, 1]).map (fun st => ((st.get 0).grad, (st.get 1).grad))
      = some (some (arr0 4), some (arr0 1)) ∧
    (Tensor.backward exAddState 1).map (fun st => ((st.get 0).grad, (st.get 1).grad))
      = some (some (arr0 2), some (arr0 1)) := by
  constructor
  · norm_num [backwardMany, Tensor.backward, Tensor.buildTopo, buildTopoAux,
      buildTopoChildren, backwardStep, runBackward, addBackward, addChildStep, setGrad,
      exAddState, exAddNode, exX, TensorData.new, State.get, State.len, arr0, arr1, addA,
      zipB, cobShape, cobShapeR, allIndices, Arr.bget, flatIndex,
      List.range_succ, List.range_zero]
  · norm_num [Tensor.backward, Tensor.buildTopo, buildTopoAux, buildTopoChildren,
      backwardStep, runBackward, addBackward, addChildStep, setGrad, exAddState, exAddNode,
      exX, TensorData.new, State.get, State.len, arr0, arr1, addA, zipB, cobShape, cobShapeR,
      allIndices, Arr.bget, flatIndex, List.range_succ, List.range_zero]

/-- Heap holding two distinct leaves carrying numerically equal data. -/
def exTwoLeaves : State := ⟨[TensorData.new (arr1 [3]) 0, TensorData.new (arr1 [3]) 1]⟩

lemma exTwoLeaves_built :
    Tensor.fromArr (Tensor.fromArr ⟨[]⟩ (arr1 [3])).1 (arr1 [3]) = (exTwoLeaves, 1) := by
  simp [Tensor.fromArr, exTwoLeaves, State.len, TensorData.new]

/-- C9: `PartialEq`/`Hash` for `Tensor` act on the per-node `_uuid` minted at
construction, not on data: a handle equals itself, two distinct nodes with
numerically equal data compare unequal, and the values fed to the hasher
differ for distinct nodes. -/
theorem tensor_eq_hash_on_uuid (s : State) (a b : NodeId) (hw : WFb s = true)
    (ha : a < s.len) (hb : b < s.len) (hab : a ≠ b)
    (hdata : (s.get a).data = (s.get b).data) :
    tensorEqb s a a = true ∧ tensorEqb s a b = false ∧
    tensorHashInput s a ≠ tensorHashInput s b := by
  have hua := (wf_spec hw ha).1
  have hub := (wf_spec hw hb).1
  refine ⟨by simp [tensorEqb], by simp [tensorEqb, hua, hub, hab], ?_⟩
  simp [tensorHashInput, hua, hub, hab]

/-- C9 witness: the identity-based equality and hashing facts on the heap with
two numerically equal leaves. -/
theorem tensor_eq_hash_on_uuid_witness :
    tensorEqb exTwoLeaves 0 0 = true ∧ tensorEqb exTwoLeaves 0 1 = false ∧
    tensorHashInput exTwoLeaves 0 ≠ tensorHashInput exTwoLeaves 1 :=
  tensor_eq_hash_on_uuid exTwoLeaves 0 1 (by decide) (by decide) (by decide) (by decide)
    (by simp [exTwoLeaves, State.get, TensorData.new])

lemma topoInv_nil (s : State) : TopoInv s ([], []) :=
  ⟨List.nodup_nil, by simp, ccp_nil s, by simp⟩

lemma children_of_aux {s : State} (fuel : Nat)
    (haux : ∀ i tv, i < s.len → i + 1 ≤ fuel → TopoInv s tv → GreyAbove tv (i + 1) →
      AuxPost s i tv (buildTopoAux s fuel i tv)) :
    ∀ (cs : List NodeId) (m : Nat) (tv : List NodeId × List Nat),
      (∀ c ∈ cs, c < m) → (∀ c ∈ cs, c < s.len) → m ≤ fuel →
      TopoInv s tv → GreyAbove tv m →
      ChildrenPost s m cs tv (buildTopoChildren s fuel cs tv) := by
  intro cs
  induction cs with
  | nil =>
    intro m tv _ _ _ hinv _
    rw [buildTopoChildren]
    exact ⟨hinv, ⟨[], by simp, by simp⟩, fun u hu => hu, fun u hu => Or.inr hu, by simp⟩
  | cons c rest ih =>
    intro m tv hcm hcl hmf hinv hgrey
    rw [buildTopoChildren]
    have hc_m : c < m := hcm c (by simp)
    have hc_l : c < s.len := hcl c (by simp)
    have hpost1 := haux c tv hc_l (Nat.le_trans (Nat.succ_le_of_lt hc_m) hmf) hinv
      (fun u hu => (hgrey u hu).imp id (fun h => Nat.le_trans (Nat.succ_le_of_lt hc_m) h))
    obtain ⟨hinv1, ⟨d1, hd1, hd1p⟩, hsub1, hnew1, hcmem1, _⟩ := hpost1
    have hgrey1 : GreyAbove (buildTopoAux s fuel c tv) m := by
      intro u hu
      rcases hnew1 u hu with h | h
      · exact Or.inl h
      · rcases hgrey u h with h2 | h2
        · exact Or.inl (by rw [hd1]; exact List.mem_append_left _ h2)
        · exact Or.inr h2
    have hpost2 := ih m (buildTopoAux s fuel c tv)
      (fun x hx => hcm x (List.mem_cons_of_mem _ hx))
      (fun x hx => hcl x (List.mem_cons_of_mem _ hx)) hmf hinv1 hgrey1
    obtain ⟨hinv2, ⟨d2, hd2, hd2p⟩, hsub2, hnew2, hmem2⟩ := hpost2
    refine ⟨hinv2, ⟨d1 ++ d2, ?_, ?_⟩, ?_, ?_, ?_⟩
    · rw [hd2, hd1, List.append_assoc]
    · intro v hv
      rcases List.mem_append.mp hv with h | h
      · obtain ⟨hle, hr⟩ := hd1p v h
        exact ⟨Nat.lt_of_le_of_lt hle hc_m, ⟨c, by simp, hr⟩⟩
      · obtain ⟨hlt, c2, hc2, hr⟩ := hd2p v h
        exact ⟨hlt, ⟨c2, List.mem_cons_of_mem _ hc2, hr⟩⟩
    · exact fun u hu => hsub2 u (hsub1 u hu)
    · intro u hu
      rcases hnew2 u hu with h | h
      · exact Or.inl h
      · rcases hnew1 u h with h2 | h2
        · exact Or.inl (by rw [hd2]; exact List.mem_append_left _ h2)
        · exact Or.inr h2
    · intro x hx
      rcases List.mem_cons.mp hx with h | h
      · subst h
        rw [hd2]
        exact List.mem_append_left _ hcmem1
      · exact hmem2 x h

lemma auxSpec {s : State} (hw : WFb s = true) :
    ∀ (fuel : Nat) (i : NodeId) (tv : List NodeId × List Nat),
      i < s.len → i + 1 ≤ fuel → TopoInv s tv → GreyAbove tv (i + 1) →
      AuxPost s i tv (buildTopoAux s fuel i tv) := by
  intro fuel
  induction fuel with
  | zero =>
    intro i tv _ hf
    exact absurd hf (Nat.not_succ_le_zero i)
  | succ f ih =>
    intro i tv hi hf hinv hgrey
    rw [buildTopoAux]
    have huuid : (s.get i)._uuid = i := (wf_spec hw hi).1
    by_cases hmem : (s.get i)._uuid ∈ tv.2
    · simp only [hmem, if_true]
      have himem : i ∈ tv.1 := by
        rw [huuid] at hmem
        rcases hgrey i hmem with h | h
        · exact h
        · omega
      exact ⟨hinv, ⟨[], by simp, by simp⟩, fun u hu => hu, fun u hu => Or.inr hu, himem,
        fun hni => absurd (huuid ▸ hmem) hni⟩
    · simp only [hmem, if_false]
      have hinvm : TopoInv s (tv.1, (s.get i)._uuid :: tv.2) := by
        obtain ⟨h1, h2, h3, h4⟩ := hinv
        refine ⟨h1, fun v hv => ⟨(h2 v hv).1, List.mem_cons_of_mem _ (h2 v hv).2⟩, h3, ?_⟩
        intro u hu
        rcases List.mem_cons.mp hu with h | h
        · rw [h, huuid]; exact hi
        · exact h4 u h
      have hgreym : GreyAbove (tv.1, (s.get i)._uuid :: tv.2) i := by
        intro u hu
        rcases List.mem_cons.mp hu with h | h
        · rw [h, huuid]; exact Or.inr (Nat.le_refl i)
        · rcases hgrey u h with h2 | h2
          · exact Or.inl h2
          · exact Or.inr (by omega)
      have hch_lt : ∀ c ∈ (s.get i)._children, c < i := (wf_spec hw hi).2.1
      have hch := children_of_aux f ih ((s.get i)._children) i
        (tv.1, (s.get i)._uuid :: tv.2) hch_lt
        (fun c hc => Nat.lt_trans (hch_lt c hc) hi) (Nat.le_of_succ_le_succ hf) hinvm hgreym
      obtain ⟨hinv2, ⟨d, hd, hdp⟩, hsub2, hnew2, hmem2⟩ := hch
      have hitv1 : i ∉ tv.1 := fun h => hmem (by rw [huuid]; exact (hinv.2.1 i h).2)
      have hitv2 : i ∉ (buildTopoChildren s f ((s.get i)._children)
          (tv.1, (s.get i)._uuid :: tv.2)).1 := by
        rw [hd]
        intro h
        rcases List.mem_append.mp h with h2 | h2
        · exact hitv1 h2
        · exact absurd (hdp i h2).1 (Nat.lt_irrefl i)
      have hiIn2 : i ∈ (buildTopoChildren s f ((s.get i)._children)
          (tv.1, (s.get i)._uuid :: tv.2)).2 :=
        hsub2 i (by rw [huuid] at hmem ⊢; exact List.mem_cons_self _ _)
      refine ⟨⟨?_, ?_, ?_, hinv2.2.2.2⟩, ⟨d ++ [i], ?_, ?_⟩, ?_, ?_, ?_, ?_⟩
      · exact List.nodup_append.mpr ⟨hinv2.1, List.nodup_singleton i,
          fun a ha hai => hitv2 (by rwa [List.mem_singleton.mp hai] at ha)⟩
      · intro v hv
        rcases List.mem_append.mp hv with h | h
        · exact ⟨(hinv2.2.1 v h).1, (hinv2.2.1 v h).2⟩
        · rw [List.mem_singleton.mp h]
          exact ⟨hi, hiIn2⟩
      · exact ccp_concat hinv2.2.2.1 hmem2
      · rw [hd, List.append_assoc]
      · intro v hv
        rcases List.mem_append.mp hv with h | h
        · obtain ⟨hlt, c2, hc2, hr⟩ := hdp v h
          exact ⟨Nat.le_of_lt hlt, Reaches.trans_right (Reaches.step Reaches.refl hc2) hr⟩
        · rw [List.mem_singleton.mp h]
          exact ⟨Nat.le_refl i, Reaches.refl⟩
      · exact fun u hu => hsub2 u (List.mem_cons_of_mem _ hu)
      · intro u hu
        rcases hnew2 u hu with h | h
        · exact Or.inl (List.mem_append_left _ h)
        · rcases List.mem_cons.mp h with h2 | h2
          · rw [h2, huuid]
            exact Or.inl (List.mem_append_right _ (List.mem_singleton_self i))
          · exact Or.inr h2
      · exact List.mem_append_right _ (List.mem_singleton_self i)
      · intro _
        exact ⟨d, by rw [hd]⟩

lemma buildTopo_spec {s : State} (hw : WFb s = true) {i : NodeId} (hi : i < s.len) :
    TopoInv s (Tensor.buildTopo s i) ∧
    (∀ v ∈ (Tensor.buildTopo s i).1, v ≤ i ∧ Reaches s i v) ∧
    i ∈ (Tensor.buildTopo s i).1 ∧
    (∃ d, (Tensor.buildTopo s i).1 = d ++ [i]) := by
  have h := auxSpec hw s.len i ([], []) hi hi (topoInv_nil s) (by intro u hu; simp at hu)
  obtain ⟨hinv, ⟨d, hd, hdp⟩, _, _, himem, hlast⟩ := h
  refine ⟨hinv, ?_, himem, ?_⟩
  · intro v hv
    exact hdp v (by rwa [Tensor.buildTopo, hd, List.nil_append] at hv)
  · obtain ⟨d2, hd2⟩ := hlast (by simp)
    exact ⟨d2, by rw [Tensor.buildTopo, hd2, List.nil_append]⟩

/-- C3: for every well-formed graph the operations can build, `_build_topo`
from a terminal node yields a sequence containing every reachable node exactly
once (keyed on node identity), in which every node appears strictly after all
of its own inputs, with the terminal node last. -/
theorem build_topo_correct (s : State) (i : NodeId) (hw : WFb s = true) (hi : i < s.len) :
    (Tensor.buildTopo s i).1.Nodup ∧
    (∀ j, Reaches s i j → j ∈ (Tensor.buildTopo s i).1) ∧
    (∀ v ∈ (Tensor.buildTopo s i).1, Reaches s i v) ∧
    InputsClosedBefore s (Tensor.buildTopo s i).1 ∧
    (Tensor.buildTopo s i).1.getLast? = some i := by
  obtain ⟨hinv, hsound, himem, ⟨d, hd⟩⟩ := buildTopo_spec hw hi
  refine ⟨hinv.1, ?_, fun v hv => (hsound v hv).2, hinv.2.2.1, ?_⟩
  · exact fun j hr => reaches_mem_of_ccp hinv.2.2.1 himem hr
  · rw [hd]
    exact List.getLast?_concat _

/-- Diamond-shaped heap: leaf `a` (node 0), `b = &a + &a` (node 1), and
`e = &b * &a` (node 2), in which node 0 is reachable along two paths. -/
def exDiamondState : State :=
  ⟨[exX, exAddNode,
    { TensorData.new (arr1 [18]) 2 with
        _op := some "*", _children := [1, 0], _backward := some BackKind.mulK }]⟩

lemma exDiamondState_built :
    Tensor.mul exAddState 1 0 = some (exDiamondState, 2) := by
  norm_num [Tensor.mul, exAddState, exDiamondState, exAddNode, exX, mulA, zipB, cobShape,
    cobShapeR, allIndices, State.get, State.len, TensorData.new, arr1, Arr.bget, flatIndex,
    List.range_succ, List.range_zero]

/-- C3 witness: the topological-order guarantees instantiated on the diamond
heap whose leaf is reachable along two paths. -/
theorem build_topo_correct_witness :
    (Tensor.buildTopo exDiamondState 2).1.Nodup ∧
    (∀ j, Reaches exDiamondState 2 j → j ∈ (Tensor.buildTopo exDiamondState 2).1) ∧
    (∀ v ∈ (Tensor.buildTopo exDiamondState 2).1, Reaches exDiamondState 2 v) ∧
    InputsClosedBefore exDiamondState (Tensor.buildTopo exDiamondState 2).1 ∧
    (Tensor.buildTopo exDiamondState 2).1.getLast? = some 2 :=
  build_topo_correct exDiamondState 2 (by decide) (by decide)

/-- C4: `backward()` on a terminal node seeds that node's gradient with the
rank-0 scalar one array irrespective of the node's own data shape, then runs
the nodes in reversed topological order — a duplicate-free sequence holding
every reachable node, in which every node comes before its own inputs (so
each node's closure runs at most once) — and a node without a backward
closure is skipped without error. -/
theorem backward_driver_spec (s : State) (i : NodeId) (hw : WFb s = true) (hi : i < s.len) :
    ((setGrad s i (some (arr0 1))).get i).grad = some (arr0 1) ∧
    (arr0 1).shape = [] ∧
    ((Tensor.buildTopo s i).1.reverse).Nodup ∧
    (∀ j, Reaches s i j → j ∈ (Tensor.buildTopo s i).1.reverse) ∧
    (∀ p v r, (Tensor.buildTopo s i).1.reverse = p ++ v :: r →
      ∀ c ∈ (s.get v)._children, c ∈ r) ∧
    (∀ (st : State) (v : NodeId), (st.get v)._backward = none →
      backwardStep st v = some st) := by
  obtain ⟨hinv, _, _, _⟩ := buildTopo_spec hw hi
  refine ⟨?_, rfl, List.nodup_reverse.mpr hinv.1, ?_, ?_, ?_⟩
  · rw [get_setGrad_self s i _ hi]
  · intro j hr
    exact List.mem_reverse.mpr
      (reaches_mem_of_ccp hinv.2.2.1 (buildTopo_spec hw hi).2.2.1 hr)
  · intro p v r hsplit c hc
    have htopo : (Tensor.buildTopo s i).1 = r.reverse ++ v :: p.reverse := by
      have h2 := congrArg List.reverse hsplit
      rw [List.reverse_reverse] at h2
      rw [h2]
      simp
    exact List.mem_reverse.mp (hinv.2.2.1 r.reverse v p.reverse htopo c hc)
  · intro st v h
    simp [backwardStep, h]

/-- C4 witness: the driver guarantees instantiated on the diamond heap. -/
theorem backward_driver_spec_witness :
    ((setGrad exDiamondState 2 (some (arr0 1))).get 2).grad = some (arr0 1) ∧
    (arr0 1).shape = [] ∧
    ((Tensor.buildTopo exDiamondState 2).1.reverse).Nodup ∧
    (∀ j, Reaches exDiamondState 2 j → j ∈ (Tensor.buildTopo exDiamondState 2).1.reverse) ∧
    (∀ p v r, (Tensor.buildTopo exDiamondState 2).1.reverse = p ++ v :: r →
      ∀ c ∈ (exDiamondState.get v)._children, c ∈ r) ∧
    (∀ (st : State) (v : NodeId), (st.get v)._backward = none →
      backwardStep st v = some st) :=
  backward_driver_spec exDiamondState 2 (by decide) (by decide)

lemma addChildStep_cases {g : Arr} {st : State} {c : NodeId} {st' : State}
    (h : addChildStep g st c = some st') : ∃ gn, st' = setGrad st c (some gn) := by
  unfold addChildStep at h
  cases ha : addA ((st.get c).grad.getD (arr0 0)) g with
  | none => rw [ha] at h; exact Option.noConfusion h
  | some gn =>
    rw [ha] at h
    exact ⟨gn, (Option.some.inj h).symm⟩

lemma sameSkel_addFold {g : Arr} : ∀ (cs : List NodeId) (st st' : State),
    cs.foldlM (addChildStep g) st = some st' → sameSkel st st' := by
  intro cs
  induction cs with
  | nil =>
    intro st st' h
    simp only [List.foldlM_nil] at h
    rw [Option.some.inj h] at *
    exact sameSkel_refl st'
  | cons c rest ih =>
    intro st st' h
    simp only [List.foldlM_cons] at h
    cases h1 : addChildStep g st c with
    | none => rw [h1] at h; exact Option.noConfusion h
    | some st1 =>
      rw [h1] at h
      simp only [Option.bind_eq_bind, Option.some_bind] at h
      obtain ⟨gn, hgn⟩ := addChildStep_cases h1
      exact sameSkel_trans (hgn ▸ sameSkel_setGrad st c (some gn)) (ih st1 st' h)

lemma sameSkel_tanhBackward {o : TensorData} {st st' : State}
    (h : tanhBackward o st = some st') : sameSkel st st' := by
  unfold tanhBackward at h
  repeat' split at h
  all_goals try exact Option.noConfusion h
  rw [← Option.some.inj h]
  exact sameSkel_setGrad st _ _

lemma sameSkel_reluBackward {o : TensorData} {st st' : State}
    (h : reluBackward o st = some st') : sameSkel st st' := by
  unfold reluBackward at h
  repeat' split at h
  all_goals try exact Option.noConfusion h
  rw [← Option.some.inj h]
  exact sameSkel_setGrad st _ _

lemma sameSkel_mulBackward {o : TensorData} {st st' : State}
    (h : mulBackward o st = some st') : sameSkel st st' := by
  unfold mulBackward at h
  repeat' split at h
  all_goals try exact Option.noConfusion h
  · rw [← Option.some.inj h]
    exact sameSkel_setGrad st _ _
  · rw [← Option.some.inj h]
    exact sameSkel_trans (sameSkel_setGrad st _ _) (sameSkel_setGrad _ _ _)

lemma sameSkel_addBackward {o : TensorData} {st st' : State}
    (h : addBackward o st = some st') : sameSkel st st' := by
  unfold addBackward at h
  split at h
  · exact Option.noConfusion h
  · exact sameSkel_addFold _ _ _ h

lemma sameSkel_backwardStep {st st' : State} {v : NodeId}
    (h : backwardStep st v = some st') : sameSkel st st' := by
  unfold backwardStep at h
  split at h
  · rw [← Option.some.inj h]
    exact sameSkel_refl st
  · rename_i k _
    cases k with
    | tanhK => exact sameSkel_tanhBackward h
    | reluK => exact sameSkel_reluBackward h
    | addK => exact sameSkel_addBackward h
    | mulK => exact sameSkel_mulBackward h

lemma sameSkel_stepFold : ∀ (l : List NodeId) (st st' : State),
    l.foldlM backwardStep st = some st' → sameSkel st st' := by
  intro l
  induction l with
  | nil =>
    intro st st' h
    simp only [List.foldlM_nil] at h
    rw [Option.some.inj h] at *
    exact sameSkel_refl st'
  | cons v rest ih =>
    intro st st' h
    simp only [List.foldlM_cons] at h
    cases h1 : backwardStep st v with
    | none => rw [h1] at h; exact Option.noConfusion h
    | some st1 =>
      rw [h1] at h
      simp only [Option.bind_eq_bind, Option.some_bind] at h
      exact sameSkel_trans (sameSkel_backwardStep h1) (ih st1 st' h)

lemma sameSkel_backward {s : State} {i : NodeId} {s' : State}
    (h : Tensor.backward s i = some s') : sameSkel s s' := by
  unfold Tensor.backward at h
  exact sameSkel_trans (sameSkel_setGrad s i (some (arr0 1))) (sameSkel_stepFold _ _ _ h)

lemma sameSkel_backwardMany : ∀ (l : List NodeId) (s s' : State),
    backwardMany s l = some s' → sameSkel s s' := by
  intro l
  induction l with
  | nil =>
    intro s s' h
    simp only [backwardMany, List.foldlM_nil] at h
    rw [Option.some.inj h] at *
    exact sameSkel_refl s'
  | cons v rest ih =>
    intro s s' h
    simp only [backwardMany, List.foldlM_cons] at h
    cases h1 : Tensor.backward s v with
    | none => rw [h1] at h; exact Option.noConfusion h
    | some s1 =>
      rw [h1] at h
      simp only [Option.bind_eq_bind, Option.some_bind] at h
      exact sameSkel_trans (sameSkel_backward h1) (ih s1 s' h)

/-- C8: `backward()` mutates only gradient fields: after any sequence of
`backward()` calls on any nodes, every node's `data`, `_op`, `_children`,
`_backward` and `_uuid` are identical to their values at construction, and no
node is added or removed. -/
theorem backward_mutates_only_gradients (s : State) (l : List NodeId) (s' : State)
    (h : backwardMany s l = some s') :
    s'.len = s.len ∧ ∀ j,
      (s'.get j).data = (s.get j).data ∧ (s'.get j)._op = (s.get j)._op ∧
      (s'.get j)._children = (s.get j)._children ∧
      (s'.get j)._backward = (s.get j)._backward ∧
      (s'.get j)._uuid = (s.get j)._uuid := by
  have hs := sameSkel_backwardMany l s s' h
  exact ⟨hs.1, fun j => sameSkel_fields hs j⟩

/-- Heap `exAddState` after two `backward()` calls from node 1. -/
def exAddStateTwice : State :=
  ⟨[{ exX with grad := some (arr0 4) }, { exAddNode with grad := some (arr0 1) }]⟩

lemma exAddStateTwice_run : backwardMany exAddState [1, 1] = some exAddStateTwice := by
  norm_num [backwardMany, Tensor.backward, Tensor.buildTopo, buildTopoAux,
    buildTopoChildren, backwardStep, runBackward, addBackward, addChildStep, setGrad,
    exAddState, exAddStateTwice, exAddNode, exX, TensorData.new, State.get, State.len,
    arr0, arr1, addA, zipB, cobShape, cobShapeR, allIndices, Arr.bget, flatIndex,
    List.range_succ, List.range_zero]

/-- C8 witness: the frame property instantiated on two consecutive
`backward()` calls over the self-sum heap. -/
theorem backward_mutates_only_gradients_witness :
    exAddStateTwice.len = exAddState.len ∧ ∀ j,
      (exAddStateTwice.get j).data = (exAddState.get j).data ∧
      (exAddStateTwice.get j)._op = (exAddState.get j)._op ∧
      (exAddStateTwice.get j)._children = (exAddState.get j)._children ∧
      (exAddStateTwice.get j)._backward = (exAddState.get j)._backward ∧
      (exAddStateTwice.get j)._uuid = (exAddState.get j)._uuid :=
  backward_mutates_only_gradients exAddState [1, 1] exAddStateTwice exAddStateTwice_run

lemma grad_isSome_setGrad_other {st : State} {c j : NodeId} {g : Arr}
    (h : ((st.get j).grad).isSome) : (((setGrad st c (some g)).get j).grad).isSome := by
  by_cases hj : j = c
  · subst hj
    by_cases hl : j < st.len
    · rw [get_setGrad_self st j _ hl]
      simp
    · rw [setGrad_oob st j _ (Nat.le_of_not_lt hl)]
      exact h
  · rw [get_setGrad_ne st c j _ hj]
    exact h

lemma grad_isSome_setGrad_self {st : State} {c : NodeId} {g : Arr} (hl : c < st.len) :
    (((setGrad st c (some g)).get c).grad).isSome := by
  rw [get_setGrad_self st c _ hl]
  simp

lemma tanhBackward_mono {o : TensorData} {st st' : State} (h : tanhBackward o st = some st')
    {j : NodeId} (hj : ((st.get j).grad).isSome) : ((st'.get j).grad).isSome := by
  unfold tanhBackward at h
  repeat' split at h
  all_goals try exact Option.noConfusion h
  rw [← Option.some.inj h]
  exact grad_isSome_setGrad_other hj

lemma reluBackward_mono {o : TensorData} {st st' : State} (h : reluBackward o st = some st')
    {j : NodeId} (hj : ((st.get j).grad).isSome) : ((st'.get j).grad).isSome := by
  unfold reluBackward at h
  repeat' split at h
  all_goals try exact Option.noConfusion h
  rw [← Option.some.inj h]
  exact grad_isSome_setGrad_other hj

lemma mulBackward_mono {o : TensorData} {st st' : State} (h : mulBackward o st = some st')
    {j : NodeId} (hj : ((st.get j).grad).isSome) : ((st'.get j).grad).isSome := by
  unfold mulBackward at h
  repeat' split at h
  all_goals try exact Option.noConfusion h
  · rw [← Option.some.inj h]
    exact grad_isSome_setGrad_other hj
  · rw [← Option.some.inj h]
    exact grad_isSome_setGrad_other (grad_isSome_setGrad_other hj)

lemma addFold_mono {g : Arr} : ∀ (cs : List NodeId) (st st' : State),
    cs.foldlM (addChildStep g) st = some st' →
    ∀ j, ((st.get j).grad).isSome → ((st'.get j).grad).isSome := by
  intro cs
  induction cs with
  | nil =>
    intro st st' h j hj
    simp only [List.foldlM_nil] at h
    rw [← Option.some.inj h]
    exact hj
  | cons c rest ih =>
    intro st st' h j hj
    simp only [List.foldlM_cons] at h
    cases h1 : addChildStep g st c with
    | none => rw [h1] at h; exact Option.noConfusion h
    | some st1 =>
      rw [h1] at h
      simp only [Option.bind_eq_bind, Option.some_bind] at h
      obtain ⟨gn, hgn⟩ := addChildStep_cases h1
      exact ih st1 st' h j (by rw [hgn]; exact grad_isSome_setGrad_other hj)

lemma addBackward_mono {o : TensorData} {st st' : State} (h : addBackward o st = some st')
    {j : NodeId} (hj : ((st.get j).grad).isSome) : ((st'.get j).grad).isSome := by
  unfold addBackward at h
  split at h
  · exact Option.noConfusion h
  · exact addFold_mono o._children st st' h j hj

lemma backwardStep_mono {st st' : State} {v j : NodeId} (h : backwardStep st v = some st')
    (hj : ((st.get j).grad).isSome) : ((st'.get j).grad).isSome := by
  unfold backwardStep at h
  split at h
  · rw [← Option.some.inj h]
    exact hj
  · rename_i k hk
    cases k with
    | tanhK => exact tanhBackward_mono h hj
    | reluK => exact reluBackward_mono h hj
    | addK => exact addBackward_mono h hj
    | mulK => exact mulBackward_mono h hj

lemma stepFold_mono : ∀ (l : List NodeId) (st st' : State),
    l.foldlM backwardStep st = some st' →
    ∀ j, ((st.get j).grad).isSome → ((st'.get j).grad).isSome := by
  intro l
  induction l with
  | nil =>
    intro st st' h j hj
    simp only [List.foldlM_nil] at h
    rw [← Option.some.inj h]
    exact hj
  | cons v rest ih =>
    intro st st' h j hj
    simp only [List.foldlM_cons] at h
    cases h1 : backwardStep st v with
    | none => rw [h1] at h; exact Option.noConfusion h
    | some st1 =>
      rw [h1] at h
      simp only [Option.bind_eq_bind, Option.some_bind] at h
      exact ih st1 st' h j (backwardStep_mono h1 hj)

lemma addFold_writes {g : Arr} : ∀ (cs : List NodeId) (st st' : State),
    (∀ c ∈ cs, c < st.len) → cs.foldlM (addChildStep g) st = some st' →
    ∀ c ∈ cs, ((st'.get c).grad).isSome := by
  intro cs
  induction cs with
  | nil =>
    intro st st' _ _ c hc
    exact absurd hc (List.not_mem_nil c)
  | cons c0 rest ih =>
    intro st st' hb h c hc
    simp only [List.foldlM_cons] at h
    cases h1 : addChildStep g st c0 with
    | none => rw [h1] at h; exact Option.noConfusion h
    | some st1 =>
      rw [h1] at h
      simp only [Option.bind_eq_bind, Option.some_bind] at h
      obtain ⟨gn, hgn⟩ := addChildStep_cases h1
      have hlen1 : st1.len = st.len := by rw [hgn]; exact State.len_setGrad st c0 _
      rcases List.mem_cons.mp hc with h2 | h2
      · subst h2
        exact addFold_mono rest st1 st' h c
          (by rw [hgn]; exact grad_isSome_setGrad_self (hb c (List.mem_cons_self c rest)))
      · exact ih st1 st' (fun x hx => hlen1 ▸ hb x (List.mem_cons_of_mem _ hx)) h c h2

lemma tanhBackward_writes {o : TensorData} {st st' : State} {x : NodeId}
    (hc : o._children = [x]) (hx : x < st.len) (h : tanhBackward o st = some st') :
    ((st'.get x).grad).isSome := by
  unfold tanhBackward at h
  rw [hc] at h
  dsimp only at h
  repeat' split at h
  all_goals try exact Option.noConfusion h
  rw [← Option.some.inj h]
  exact grad_isSome_setGrad_self hx

lemma reluBackward_writes {o : TensorData} {st st' : State} {x : NodeId}
    (hc : o._children = [x]) (hx : x < st.len) (h : reluBackward o st = some st') :
    ((st'.get x).grad).isSome := by
  unfold reluBackward at h
  rw [hc] at h
  dsimp only at h
  repeat' split at h
  all_goals try exact Option.noConfusion h
  rw [← Option.some.inj h]
  exact grad_isSome_setGrad_self hx

lemma mulBackward_writes {o : TensorData} {st st' : State} {a b : NodeId}
    (hc : o._children = [a, b]) (ha : a < st.len) (hb : b < st.len)
    (h : mulBackward o st = some st') :
    ((st'.get a).grad).isSome ∧ ((st'.get b).grad).isSome := by
  unfold mulBackward at h
  rw [hc] at h
  dsimp only at h
  by_cases hab : a = b
  · simp only [if_pos hab] at h
    repeat' split at h
    all_goals try exact Option.noConfusion h
    rw [← Option.some.inj h]
    refine ⟨grad_isSome_setGrad_self ha, ?_⟩
    rw [← hab]
    exact grad_isSome_setGrad_self ha
  · simp only [if_neg hab] at h
    repeat' split at h
    all_goals try exact Option.noConfusion h
    rw [← Option.some.inj h]
    refine ⟨?_, grad_isSome_setGrad_self (by rw [State.len_setGrad]; exact hb)⟩
    rw [get_setGrad_ne _ b a _ (fun h2 => hab h2)]
    exact grad_isSome_setGrad_self ha

lemma addBackward_writes {o : TensorData} {st st' : State}
    (hcl : ∀ c ∈ o._children, c < st.len) (h : addBackward o st = some st') :
    ∀ c ∈ o._children, ((st'.get c).grad).isSome := by
  unfold addBackward at h
  split at h
  · exact Option.noConfusion h
  · exact addFold_writes o._children st st' hcl h

lemma nodeOK_shape {t : TensorData} (hok : nodeOKb t = true) :
    (t._backward = none ∧ t._children = []) ∨
    ((t._backward = some BackKind.tanhK ∨ t._backward = some BackKind.reluK) ∧
      ∃ x, t._children = [x]) ∨
    ((t._backward = some BackKind.addK ∨ t._backward = some BackKind.mulK) ∧
      ∃ a b, t._children = [a, b]) := by
  unfold nodeOKb at hok
  split at hok
  · next h1 h2 => exact Or.inl ⟨h1, h2⟩
  · next x h1 h2 => exact Or.inr (Or.inl ⟨Or.inl h1, x, h2⟩)
  · next x h1 h2 => exact Or.inr (Or.inl ⟨Or.inr h1, x, h2⟩)
  · next a b h1 h2 => exact Or.inr (Or.inr ⟨Or.inl h1, a, b, h2⟩)
  · next a b h1 h2 => exact Or.inr (Or.inr ⟨Or.inr h1, a, b, h2⟩)
  · next => exact absurd hok (by simp)

lemma nodeOKb_congr {t t' : TensorData} (hc : t'._children = t._children)
    (hb : t'._backward = t._backward) : nodeOKb t' = nodeOKb t := by
  unfold nodeOKb
  rw [hc, hb]

lemma backwardStep_writes {st st' : State} {c : NodeId}
    (hok : nodeOKb (st.get c) = true) (hcl : ∀ v ∈ (st.get c)._children, v < st.len)
    (h : backwardStep st c = some st') :
    ∀ v ∈ (st.get c)._children, ((st'.get v).grad).isSome := by
  intro v hv
  unfold backwardStep at h
  rcases nodeOK_shape hok with ⟨hb, hch⟩ | ⟨hb, x, hch⟩ | ⟨hb, a, b, hch⟩
  · rw [hch] at hv
    exact absurd hv (List.not_mem_nil v)
  · have hvx : v = x := by
      rw [hch] at hv
      simpa using hv
    rcases hb with hb | hb
    · rw [hb] at h
      exact hvx ▸ tanhBackward_writes hch (hcl x (by rw [hch]; simp)) h
    · rw [hb] at h
      exact hvx ▸ reluBackward_writes hch (hcl x (by rw [hch]; simp)) h
  · have hvab : v = a ∨ v = b := by
      rw [hch] at hv
      simpa using hv
    have ha : a < st.len := hcl a (by rw [hch]; simp)
    have hb2 : b < st.len := hcl b (by rw [hch]; simp)
    rcases hb with hb | hb
    · rw [hb] at h
      have hall := addBackward_writes hcl h
      rcases hvab with h2 | h2
      · exact h2 ▸ hall a (by rw [hch]; simp)
      · exact h2 ▸ hall b (by rw [hch]; simp)
    · rw [hb] at h
      have hall := mulBackward_writes hch ha hb2 h
      rcases hvab with h2 | h2
      · exact h2 ▸ hall.1
      · exact h2 ▸ hall.2

lemma stepFold_decomp {p1 p2 : List NodeId} {c : NodeId} {s0 sv : State}
    (h : (p1 ++ c :: p2).foldlM backwardStep s0 = some sv) :
    ∃ s1 s2, p1.foldlM backwardStep s0 = some s1 ∧ backwardStep s1 c = some s2 ∧
      p2.foldlM backwardStep s2 = some sv := by
  rw [List.foldlM_append] at h
  cases h1 : p1.foldlM backwardStep s0 with
  | none =>
    rw [h1] at h
    simp at h
  | some s1 =>
    rw [h1] at h
    simp only [Option.bind_eq_bind, Option.some_bind] at h
    rw [List.foldlM_cons] at h
    cases h2 : backwardStep s1 c with
    | none =>
      rw [h2] at h
      simp at h
    | some s2 =>
      rw [h2] at h
      simp only [Option.bind_eq_bind, Option.some_bind] at h
      exact ⟨s1, s2, rfl, h2, h⟩

lemma reaches_last_step {s : State} {i v : NodeId} (h : Reaches s i v) (hne : v ≠ i) :
    ∃ c, Reaches s i c ∧ v ∈ (s.get c)._children := by
  cases h with
  | refl => exact absurd rfl hne
  | step hr hc => exact ⟨_, hr, hc⟩

lemma parent_processed_earlier {s : State} (hw : WFb s = true) {topo : List NodeId}
    (hnd : topo.Nodup) (hccp : InputsClosedBefore s topo)
    (hbound : ∀ v ∈ topo, v < s.len)
    {p r : List NodeId} {v c : NodeId} (hsplit : topo.reverse = p ++ v :: r)
    (hcmem : c ∈ topo) (hvch : v ∈ (s.get c)._children) : c ∈ p := by
  have htopo : topo = r.reverse ++ v :: p.reverse := by
    have h2 := congrArg List.reverse hsplit
    rw [List.reverse_reverse] at h2
    rw [h2]
    simp
  have hcl : c < s.len := hbound c hcmem
  have hvc : v < c := wf_child_lt hw hcl hvch
  rw [htopo] at hcmem hnd
  rcases List.mem_append.mp hcmem with hcr | hcv
  · rcases List.append_of_mem hcr with ⟨p2, r2, hr⟩
    have htopo2 : r.reverse ++ v :: p.reverse = p2 ++ c :: (r2 ++ v :: p.reverse) := by
      rw [hr]
      simp
    have hvp2 : v ∈ p2 := hccp p2 c (r2 ++ v :: p.reverse) (htopo ▸ htopo2) v hvch
    have hvr : v ∈ r.reverse := by
      rw [hr]
      exact List.mem_append_left _ hvp2
    obtain ⟨_, _, hdisj⟩ := List.nodup_append.mp hnd
    exact absurd (List.mem_cons_self v _) (hdisj hvr)
  · rcases List.mem_cons.mp hcv with hceq | hcp
    · exact absurd (hceq ▸ hvc) (Nat.lt_irrefl v)
    · exact List.mem_reverse.mp hcp

/-- C10: during a single `backward()` call, every backward closure that is
invoked finds its own node's gradient already set — the `out.grad.unwrap()`
calls never panic: the terminal node is seeded before the loop, and every
other node in the reversed order has had a consumer's closure run first, each
of which stores a `Some` gradient into all of its inputs. -/
theorem invoked_closures_find_gradient (s : State) (i : NodeId)
    (hw : WFb s = true) (hi : i < s.len) (p : List NodeId) (v : NodeId) (r : List NodeId)
    (hsplit : (Tensor.buildTopo s i).1.reverse = p ++ v :: r) (sv : State)
    (hrun : p.foldlM backwardStep (setGrad s i (some (arr0 1))) = some sv)
    (hbk : ((sv.get v)._backward).isSome) : ((sv.get v).grad).isSome := by
  obtain ⟨hinv, hsound, himem, d0, hd0⟩ := buildTopo_spec hw hi
  have ht : (Tensor.buildTopo s i).1.reverse = i :: d0.reverse := by
    rw [hd0]
    simp
  by_cases hvi : v = i
  · subst hvi
    cases p with
    | nil =>
      simp only [List.foldlM_nil] at hrun
      rw [← Option.some.inj hrun]
      rw [get_setGrad_self s v _ hi]
      simp
    | cons p0 ps =>
      rw [ht] at hsplit
      rw [List.cons_append] at hsplit
      have h2 : d0.reverse = ps ++ v :: r := (List.cons.inj hsplit).2
      have hnd : (v :: d0.reverse).Nodup := by
        rw [← ht]
        exact List.nodup_reverse.mpr hinv.1
      have hvd : v ∈ d0.reverse := by
        rw [h2]
        exact List.mem_append_right _ (List.mem_cons_self v r)
      exact absurd hvd (List.nodup_cons.mp hnd).1
  · have hvmem : v ∈ (Tensor.buildTopo s i).1 := by
      have hm : v ∈ (Tensor.buildTopo s i).1.reverse := by
        rw [hsplit]
        exact List.mem_append_right _ (List.mem_cons_self v r)
      exact List.mem_reverse.mp hm
    have hvreach : Reaches s i v := (hsound v hvmem).2
    obtain ⟨c, hcr, hvch⟩ := reaches_last_step hvreach hvi
    have hcmem : c ∈ (Tensor.buildTopo s i).1 := reaches_mem_of_ccp hinv.2.2.1 himem hcr
    have hcp : c ∈ p := parent_processed_earlier hw hinv.1 hinv.2.2.1
      (fun x hx => (hinv.2.1 x hx).1) hsplit hcmem hvch
    obtain ⟨p1, p2, hp⟩ := List.append_of_mem hcp
    rw [hp] at hrun
    obtain ⟨s1, s2, hf1, hstep, hf2⟩ := stepFold_decomp hrun
    have hsk1 : sameSkel s s1 :=
      sameSkel_trans (sameSkel_setGrad s i _) (sameSkel_stepFold p1 _ s1 hf1)
    have hclen : c < s.len := (hinv.2.1 c hcmem).1
    have hch_eq : (s1.get c)._children = (s.get c)._children := (sameSkel_fields hsk1 c).2.2.1
    have hok1 : nodeOKb (s1.get c) = true := by
      rw [nodeOKb_congr hch_eq (sameSkel_fields hsk1 c).2.2.2.1]
      exact (wf_spec hw hclen).2.2
    have hcl1 : ∀ x ∈ (s1.get c)._children, x < s1.len := by
      intro x hx
      rw [hch_eq] at hx
      rw [hsk1.1]
      exact Nat.lt_trans (wf_child_lt hw hclen hx) hclen
    have hw2 := backwardStep_writes hok1 hcl1 hstep v (by rw [hch_eq]; exact hvch)
    exact stepFold_mono p2 s2 sv hf2 v hw2

/-- Intermediate heap of `backward()` on the diamond: after seeding node 2 and
running node 2's multiply closure, just before node 1's closure is invoked. -/
def exDiamondMid : State :=
  ⟨[{ exX with grad := some (arr1 [6]) }, { exAddNode with grad := some (arr1 [3]) },
    { TensorData.new (arr1 [18]) 2 with
        _op := some "*", _children := [1, 0], _backward := some BackKind.mulK,
        grad := some (arr0 1) }]⟩

/-- C10 witness: in the diamond heap, when the loop reaches node 1 (the add
node) its gradient has already been stored by node 2's multiply closure. -/
theorem invoked_closures_find_gradient_witness : ((exDiamondMid.get 1).grad).isSome :=
  invoked_closures_find_gradient exDiamondState 2 (by decide) (by decide) [2] 1 [0]
    (by norm_num [Tensor.buildTopo, buildTopoAux, buildTopoChildren, exDiamondState,
      exAddNode, exX, TensorData.new, State.get, State.len]) exDiamondMid
    (by norm_num [Tensor.buildTopo, buildTopoAux, buildTopoChildren, backwardStep,
      runBackward, mulBackward, setGrad, exDiamondState, exDiamondMid, exAddNode, exX,
      TensorData.new, State.get, State.len, arr0, arr1, addA, mulA, zipB, cobShape,
      cobShapeR, allIndices, Arr.bget, flatIndex, List.range_succ, List.range_zero])
    (by decide)

lemma get_append_lt {s : State} {td : TensorData} {j : NodeId} (hj : j < s.len) :
    (State.mk (s.nodes ++ [td])).get j = s.get j := by
  simp [State.get, List.getD_eq_getElem?_getD, List.getElem?_append_left hj]

lemma get_append_self {s : State} {td : TensorData} :
    (State.mk (s.nodes ++ [td])).get s.len = td := by
  simp [State.get, State.len, List.getD_eq_getElem?_getD, List.getElem?_concat_length]

lemma wf_append {s : State} (hw : WFb s = true) {td : TensorData}
    (hu : td._uuid = s.len) (hch : ∀ c ∈ td._children, c < s.len)
    (hok : nodeOKb td = true) : WFb (State.mk (s.nodes ++ [td])) = true := by
  simp only [WFb, List.all_eq_true, List.mem_range, Bool.and_eq_true, beq_iff_eq,
    decide_eq_true_eq] at hw ⊢
  intro j hj
  have hlen : (State.mk (s.nodes ++ [td])).len = s.len + 1 := by
    simp [State.len]
  rw [hlen] at hj
  by_cases h2 : j < s.len
  · rw [get_append_lt h2]
    exact hw j h2
  · have h3 : j = s.len := by omega
    subst h3
    rw [get_append_self]
    exact ⟨⟨hu, hch⟩, hok⟩

/-- Every state the public constructors can build is well-formed: freshly
minted uuids equal the allocation index, inputs point strictly below their
node, and each backward tag matches its arity. -/
lemma built_wf {s : State} (h : Built s) : WFb s = true := by
  induction h with
  | empty => rfl
  | leaf a _ ih =>
    exact wf_append ih rfl (by simp [TensorData.new]) rfl
  | tanhB f _ hx ih =>
    refine wf_append ih rfl ?_ rfl
    intro c hc
    simp [TensorData.new] at hc
    rw [hc]
    exact hx
  | reluB _ hx ih =>
    refine wf_append ih rfl ?_ rfl
    intro c hc
    simp [TensorData.new] at hc
    rw [hc]
    exact hx
  | @addB s0 s1 a b o _ ha hb hop ih =>
    cases hd : addA (s0.get a).data (s0.get b).data with
    | none =>
      rw [Tensor.add, hd] at hop
      exact Option.noConfusion hop
    | some d =>
      rw [Tensor.add, hd] at hop
      simp only [Option.map_some', Option.some.injEq, Prod.mk.injEq] at hop
      rw [← hop.1]
      refine wf_append ih rfl ?_ rfl
      intro c hc
      simp [TensorData.new] at hc
      rcases hc with hc | hc
      · exact hc ▸ ha
      · exact hc ▸ hb
  | @mulB s0 s1 a b o _ ha hb hop ih =>
    cases hd : mulA (s0.get a).data (s0.get b).data with
    | none =>
      rw [Tensor.mul, hd] at hop
      exact Option.noConfusion hop
    | some d =>
      rw [Tensor.mul, hd] at hop
      simp only [Option.map_some', Option.some.injEq, Prod.mk.injEq] at hop
      rw [← hop.1]
      refine wf_append ih rfl ?_ rfl
      intro c hc
      simp [TensorData.new] at hc
      rcases hc with hc | hc
      · exact hc ▸ ha
      · exact hc ▸ hb
